import Mathlib

/-!
Shallow embedding of the cleaning-robots simulation in
`A01741660_ModMul_M1.py`: the `DummyAgent` two-phase movement (intent /
advance), the `DummyModel` construction (agent placement at the fixed
corner `(0, N-1)`, dirty-tile spawning on free cells) and per-tick `step`
(intent phase, advance phase, cleaning detection and removal, step
counter, termination check and summary), together with proofs of the
specified properties.

Randomness is made explicit: the `random.choice` over the eight move
offsets becomes a function `Nat → Fin moves.length` giving each agent's
chosen offset for the tick, and the `random.choice` over free cells in
`spawn_dirty_tiles` becomes a selection function `Nat → Nat` whose value
is reduced modulo the current number of free cells (every choice of a
uniformly random element of a nonempty list arises this way).

Python integers are embedded as `Int`; Python lists as `List`;
`list.remove` (first occurrence) as `List.erase`.
-/

namespace RoombaSim

/-- Board size constants from the source: `M = 6` (width), `N = 6` (height). -/
def boardM : Int := 6

/-- Height constant `N = 6`. -/
def boardN : Int := 6

/-- The fixed cell at which every agent is placed by `DummyModel.__init__`:
`self.grid.place_agent(agent, (0, N-1))`.  Note the source uses the global
constant `N`, not the `height` parameter. -/
def start_pos : Int × Int := (0, boardN - 1)

/-- Source `DummyAgent.in_bounds`: `0 <= x < width and 0 <= y < height`. -/
def in_bounds (width height : Int) (p : Int × Int) : Bool :=
  decide (0 ≤ p.1 ∧ p.1 < width ∧ 0 ≤ p.2 ∧ p.2 < height)

/-- The eight candidate move offsets of `DummyAgent.intent`, in source order:
left, right, up, down, left-down, right-up, left-up, right-down. -/
def moves : List (Int × Int) :=
  [(-1, 0), (1, 0), (0, 1), (0, -1), (-1, -1), (1, 1), (-1, 1), (1, -1)]

/-- State of a `DummyAgent`: its id, its position on the grid (held by the
Mesa grid in the source, mutated only through `grid.move_agent`), the
pending intent `next_pos` (`None` until the first intent), and the
`moves_made` counter. -/
structure DummyAgent where
  unique_id : Nat
  pos : Int × Int
  next_pos : Option (Int × Int)
  moves_made : Nat
deriving DecidableEq

/-- Source `DummyAgent.intent`: pick the offset `moves[mv]`, form the candidate
position; if it is in bounds the intent is the candidate, otherwise the
agent stays in place (`next_pos = current position`). -/
def DummyAgent.intent (width height : Int) (mv : Fin moves.length)
    (a : DummyAgent) : DummyAgent :=
  let mo := moves.get mv
  let new_pos := (a.pos.1 + mo.1, a.pos.2 + mo.2)
  if in_bounds width height new_pos then
    { a with next_pos := some new_pos }
  else
    { a with next_pos := some a.pos }

/-- Source `DummyAgent.advance`: if a pending intent exists (`self.next_pos` is
truthy; a 2-tuple is always truthy, so only `None` fails the test) and is
still in bounds, and differs from the current position, move there and
count the move; otherwise do nothing. -/
def DummyAgent.advance (width height : Int) (a : DummyAgent) : DummyAgent :=
  match a.next_pos with
  | none => a
  | some np =>
    if in_bounds width height np then
      if np ≠ a.pos then
        { a with pos := np, moves_made := a.moves_made + 1 }
      else a
    else a

/-- State of a `DummyModel`.  `agents` is the insertion-ordered list of the
`_agents` dict values; `dirty_tiles` is the Python list of dirty cells. -/
structure DummyModel where
  width : Int
  height : Int
  agents : List DummyAgent
  dirty_tiles : List (Int × Int)
  dirty_count : Int
  max_steps : Int
  current_step : Int
  done : Bool
  cleaned_count : Nat
  last_cleaned_step : Option Int
deriving DecidableEq

/-- All cells of the grid in the iteration order of `spawn_dirty_tiles`
(`for x in range(width) for y in range(height)`). -/
def grid_cells (width height : Int) : List (Int × Int) :=
  (List.range width.toNat).flatMap fun (x : Nat) =>
    (List.range height.toNat).map fun (y : Nat) => ((x : Int), (y : Int))

/-- Mesa `grid.is_cell_empty((x, y))`: no agent occupies the cell.  `occupied`
is the list of current agent positions. -/
def is_cell_empty (occupied : List (Int × Int)) (c : Int × Int) : Bool :=
  ! occupied.contains c

/-- The `free_cells` list built by `spawn_dirty_tiles`: grid cells that are
empty and not already dirty. -/
def spawn_free_cells (width height : Int)
    (occupied dirty : List (Int × Int)) : List (Int × Int) :=
  (grid_cells width height).filter fun c =>
    is_cell_empty occupied c && ! dirty.contains c

/-- The spawning loop of `spawn_dirty_tiles`: `n` times, pick a random
element of `free_cells` (`random.choice`, modelled by the selection index
`sel` reduced mod the current list length; the lookup returns `none` only
on an empty list, which the loop bound rules out), append it to the dirty
list and remove it from `free_cells` (first occurrence, as
`list.remove`). -/
def spawn_loop (sel : Nat → Nat) :
    Nat → List (Int × Int) → List (Int × Int) → List (Int × Int)
  | 0, dirty, _ => dirty
  | n + 1, dirty, free =>
    match free[sel n % free.length]? with
    | none => dirty
    | some c => spawn_loop sel n (dirty ++ [c]) (free.erase c)

/-- Source `DummyModel.spawn_dirty_tiles`: `needed = dirty_count - len(dirty)`,
build `free_cells`, then run the loop `min(needed, len(free_cells))`
times (a negative count yields an empty `range`). -/
def spawn_dirty_tiles (width height dirty_count : Int)
    (occupied dirty : List (Int × Int)) (sel : Nat → Nat) : List (Int × Int) :=
  let needed : Int := dirty_count - (dirty.length : Int)
  let free := spawn_free_cells width height occupied dirty
  spawn_loop sel (min needed (free.length : Int)).toNat dirty free

/-- The agents created by `DummyModel.__init__`: ids `0..agent_count-1`,
all placed at `start_pos`, with no pending intent and zero moves. -/
def init_agents (agent_count : Int) : List DummyAgent :=
  (List.range agent_count.toNat).map fun i =>
    { unique_id := i, pos := start_pos, next_pos := none, moves_made := 0 }

/-- Source `DummyModel.__init__(height, width, agent_count, dirty_count,
max_steps)`.  Mesa's `MultiGrid.place_agent` indexes the cell lists at the
given coordinates, so placing an agent at `start_pos = (0, 5)` raises when
that cell is outside the grid; this is the only way construction can fail,
and is modelled by `none`.  Otherwise the model starts with the spawned
dirty tiles, `current_step = 0`, `done = False`, `cleaned_count = 0` and
`last_cleaned_step = None`. -/
def DummyModel.init (height width agent_count dirty_count max_steps : Int)
    (sel : Nat → Nat) : Option DummyModel :=
  if 0 < agent_count ∧ ¬ in_bounds width height start_pos = true then none
  else
    let agents := init_agents agent_count
    let dirty := spawn_dirty_tiles width height dirty_count
      (agents.map (fun a => a.pos)) [] sel
    some { width := width, height := height, agents := agents,
           dirty_tiles := dirty, dirty_count := dirty_count,
           max_steps := max_steps, current_step := 0, done := false,
           cleaned_count := 0, last_cleaned_step := none }

/-- The intent phase of `DummyModel.step`: `for agent in self.agents:
agent.step()`, each agent drawing its own random offset (`mvf i` for the
`i`-th agent in iteration order). -/
def intent_phase (width height : Int) (mvf : Nat → Fin moves.length) :
    Nat → List DummyAgent → List DummyAgent
  | _, [] => []
  | i, a :: rest => a.intent width height (mvf i) :: intent_phase width height mvf (i + 1) rest

/-- The advance phase of `DummyModel.step`: `for agent in self.agents:
agent.advance()`. -/
def advance_phase (width height : Int) (agents : List DummyAgent) : List DummyAgent :=
  agents.map (DummyAgent.advance width height)

/-- The cleaning-detection test of `DummyModel.step`: some agent sits on
the tile. -/
def occupied_tile (agents : List DummyAgent) (t : Int × Int) : Bool :=
  agents.any fun a => a.pos = t

/-- Source `DummyModel.step`: no-op when done; otherwise run the intent phase,
the advance phase, collect the dirty tiles occupied by some agent
(`to_remove`, in registry order, each tile appended once thanks to the
`break`), remove each from the registry (`list.remove` = first-occurrence
erase) while counting it and stamping `last_cleaned_step = current_step + 1`,
advance `current_step`, and finish (set `done`, print the summary) when
the registry is empty or the budget is reached. -/
def DummyModel.step (m : DummyModel) (mvf : Nat → Fin moves.length) : DummyModel :=
  if m.done then m
  else
    let agents2 := advance_phase m.width m.height
      (intent_phase m.width m.height mvf 0 m.agents)
    let to_remove := m.dirty_tiles.filter (occupied_tile agents2)
    let dirty := to_remove.foldl List.erase m.dirty_tiles
    let cleaned := m.cleaned_count + to_remove.length
    let last := if to_remove.isEmpty then m.last_cleaned_step
                else some (m.current_step + 1)
    let next_step := m.current_step + 1
    let fin : Bool := dirty.isEmpty || decide (next_step ≥ m.max_steps)
    { m with agents := agents2, dirty_tiles := dirty, cleaned_count := cleaned,
             last_cleaned_step := last, current_step := next_step, done := fin }

/-- Total moves summed across agents, as in `print_summary`. -/
def total_moves (agents : List DummyAgent) : Nat :=
  (agents.map fun a => a.moves_made).sum

/-- The data printed by `DummyModel.print_summary`: either the all-cleaned
branch or the budget-exhausted branch. -/
inductive Summary where
  | allCleaned (last_cleaned_step : Option Int) (cleaned_count : Nat)
      (totalMoves : Nat)
  | budgetExhausted (max_steps current_step : Int) (cleaned_count : Nat)
      (totalMoves : Nat)
deriving DecidableEq

/-- Source `DummyModel.print_summary` as a pure reading of the state: the
all-cleaned branch when the registry is empty (checked first), otherwise
the budget-exhausted branch. -/
def DummyModel.print_summary (m : DummyModel) : Summary :=
  if m.dirty_tiles.isEmpty then
    Summary.allCleaned m.last_cleaned_step m.cleaned_count (total_moves m.agents)
  else
    Summary.budgetExhausted m.max_steps m.current_step m.cleaned_count
      (total_moves m.agents)

/-- Repeated ticking: fold `step` over a list of per-tick move choices. -/
def DummyModel.run (m : DummyModel) (mvs : List (Nat → Fin moves.length)) : DummyModel :=
  mvs.foldl DummyModel.step m

/-- The full state trace of a run, starting state included. -/
def DummyModel.trace (m : DummyModel) : List (Nat → Fin moves.length) → List DummyModel
  | [] => [m]
  | mv :: rest => m :: (m.step mv).trace rest

/-! ### Agent-level lemmas -/

/-- The intent phase never mutates the position. -/
theorem intent_pos (w h : Int) (mv : Fin moves.length) (a : DummyAgent) :
    (a.intent w h mv).pos = a.pos := by
  unfold DummyAgent.intent
  dsimp only
  split <;> rfl

/-- The intent phase never mutates the move counter. -/
theorem intent_moves_made (w h : Int) (mv : Fin moves.length) (a : DummyAgent) :
    (a.intent w h mv).moves_made = a.moves_made := by
  unfold DummyAgent.intent
  dsimp only
  split <;> rfl

/-- An out-of-bounds candidate degrades to a stay-in-place intent. -/
theorem intent_fallback (w h : Int) (mv : Fin moves.length) (a : DummyAgent)
    (hc : in_bounds w h (a.pos.1 + (moves.get mv).1, a.pos.2 + (moves.get mv).2) = false) :
    (a.intent w h mv).next_pos = some a.pos := by
  unfold DummyAgent.intent
  simp only [List.get_eq_getElem] at hc
  simp [hc]

/-- If the agent starts in bounds, its intent is some in-bounds position. -/
theorem intent_next_pos_in_bounds (w h : Int) (mv : Fin moves.length) (a : DummyAgent)
    (ha : in_bounds w h a.pos = true) :
    ∃ np, (a.intent w h mv).next_pos = some np ∧ in_bounds w h np = true := by
  unfold DummyAgent.intent
  dsimp only
  by_cases hc : in_bounds w h (a.pos.1 + (moves.get mv).1, a.pos.2 + (moves.get mv).2) = true
  · refine ⟨_, ?_, hc⟩
    simp only [List.get_eq_getElem] at hc
    simp [List.get_eq_getElem, hc]
  · refine ⟨a.pos, ?_, ha⟩
    simp only [List.get_eq_getElem] at hc
    simp [List.get_eq_getElem, hc]

/-- Advancing an agent whose pending intent is in bounds (or absent) keeps
it in bounds, provided it starts in bounds. -/
theorem advance_pos_in_bounds (w h : Int) (a : DummyAgent)
    (ha : in_bounds w h a.pos = true) :
    in_bounds w h (a.advance w h).pos = true := by
  unfold DummyAgent.advance
  cases hnp : a.next_pos with
  | none => exact ha
  | some np =>
    by_cases hb : in_bounds w h np = true
    · by_cases hne : np = a.pos
      · simp [hb, hne, ha]
      · simp [hb, hne]
    · simp [Bool.not_eq_true] at hb
      simp [hb, ha]

/-- The counter `moves_made` grows by one exactly when `advance` changed the position. -/
theorem advance_moves_made (w h : Int) (a : DummyAgent) :
    (a.advance w h).moves_made =
      a.moves_made + (if (a.advance w h).pos = a.pos then 0 else 1) := by
  unfold DummyAgent.advance
  cases hnp : a.next_pos with
  | none => simp
  | some np =>
    by_cases hb : in_bounds w h np = true
    · by_cases hne : np = a.pos
      · simp [hb, hne]
      · simp [hb, hne]
    · simp [Bool.not_eq_true] at hb
      simp [hb]

/-- An `advance` leaves the position unchanged or moves it to the pending
intent. -/
theorem advance_pos_cases (w h : Int) (a : DummyAgent) :
    (a.advance w h).pos = a.pos ∨ a.next_pos = some ((a.advance w h).pos) := by
  unfold DummyAgent.advance
  cases hnp : a.next_pos with
  | none => exact Or.inl rfl
  | some np =>
    by_cases hb : in_bounds w h np = true
    · by_cases hne : np = a.pos
      · exact Or.inl (by simp [hb, hne])
      · exact Or.inr (by simp [hb, hne])
    · simp [Bool.not_eq_true] at hb
      exact Or.inl (by simp [hb])

/-! ### Phase-level lemmas -/

/-- Every agent after the two phases arises from some pre-tick agent by an
intent followed by an advance. -/
theorem mem_post_phases (w h : Int) (mvf : Nat → Fin moves.length) :
    ∀ (l : List DummyAgent) (i : Nat),
      ∀ b ∈ advance_phase w h (intent_phase w h mvf i l),
        ∃ a ∈ l, ∃ j, b = (a.intent w h (mvf j)).advance w h
  | [], _, b, hb => by simp [intent_phase, advance_phase] at hb
  | a :: rest, i, b, hb => by
    simp only [intent_phase, advance_phase, List.map_cons, List.mem_cons] at hb
    rcases hb with hb | hb
    · exact ⟨a, List.mem_cons_self a rest, i, hb⟩
    · obtain ⟨a0, ha0, j, hj⟩ := mem_post_phases w h mvf rest (i + 1) b hb
      exact ⟨a0, List.mem_cons_of_mem a ha0, j, hj⟩

/-- The number of agents is preserved by the two phases. -/
theorem length_post_phases (w h : Int) (mvf : Nat → Fin moves.length) :
    ∀ (l : List DummyAgent) (i : Nat),
      (advance_phase w h (intent_phase w h mvf i l)).length = l.length
  | [], _ => rfl
  | a :: rest, i => by
    simp only [intent_phase, advance_phase, List.map_cons, List.length_cons]
    exact congrArg (· + 1) (length_post_phases w h mvf rest (i + 1))

/-- Number of agents whose position differs between a pre-tick list and a
post-tick list (paired up positionally). -/
def changed_count : List DummyAgent → List DummyAgent → Nat
  | a :: pre, b :: post => (if b.pos = a.pos then 0 else 1) + changed_count pre post
  | _, _ => 0

/-- The sum `total_moves` distributes over `cons`. -/
theorem total_moves_cons (a : DummyAgent) (l : List DummyAgent) :
    total_moves (a :: l) = a.moves_made + total_moves l := by
  simp [total_moves]

/-- Across the two phases, the total move count grows by exactly the
number of agents whose position changed. -/
theorem total_moves_post_phases (w h : Int) (mvf : Nat → Fin moves.length) :
    ∀ (l : List DummyAgent) (i : Nat),
      total_moves (advance_phase w h (intent_phase w h mvf i l)) =
        total_moves l + changed_count l (advance_phase w h (intent_phase w h mvf i l))
  | [], _ => rfl
  | a :: rest, i => by
    have hrec := total_moves_post_phases w h mvf rest (i + 1)
    have hmm := advance_moves_made w h (a.intent w h (mvf i))
    rw [intent_moves_made, intent_pos] at hmm
    simp only [intent_phase, advance_phase, List.map_cons, total_moves_cons, changed_count]
    rw [hmm]
    unfold advance_phase at hrec
    rw [hrec]
    by_cases hch : ((a.intent w h (mvf i)).advance w h).pos = a.pos
    · simp only [hch, if_pos]
      omega
    · rw [if_neg hch]
      omega

/-! ### Grid and spawn lemmas -/

/-- Membership in the list of grid cells is exactly in-bounds-ness. -/
theorem grid_cells_mem (w h : Int) (p : Int × Int) :
    p ∈ grid_cells w h ↔ 0 ≤ p.1 ∧ p.1 < w ∧ 0 ≤ p.2 ∧ p.2 < h := by
  obtain ⟨px, py⟩ := p
  simp only [grid_cells, List.mem_flatMap, List.mem_map, List.mem_range, Prod.mk.injEq]
  constructor
  · rintro ⟨x, hx, y, hy, e1, e2⟩
    subst e1
    subst e2
    refine ⟨by omega, by omega, by omega, by omega⟩
  · rintro ⟨h1, h2, h3, h4⟩
    exact ⟨px.toNat, by omega, py.toNat, by omega, by omega, by omega⟩

/-- The grid-cell list has no duplicates. -/
theorem grid_cells_nodup (w h : Int) : (grid_cells w h).Nodup := by
  unfold grid_cells
  refine List.nodup_flatMap.2 ⟨?_, ?_⟩
  · intro x _
    refine List.Nodup.map ?_ (List.nodup_range _)
    intro y1 y2 hy
    simpa using hy
  · refine List.Pairwise.imp ?_ (List.pairwise_lt_range _)
    intro x1 x2 hx a ha1 ha2
    simp only [List.mem_map, List.mem_range] at ha1 ha2
    obtain ⟨y1, _, rfl⟩ := ha1
    obtain ⟨y2, _, heq⟩ := ha2
    have he : (x2 : Int) = (x1 : Int) := congrArg Prod.fst heq
    omega

/-- The free-cell list has no duplicates. -/
theorem spawn_free_cells_nodup (w h : Int) (occupied dirty : List (Int × Int)) :
    (spawn_free_cells w h occupied dirty).Nodup :=
  (grid_cells_nodup w h).filter _

/-- Membership in the free-cell list. -/
theorem spawn_free_cells_mem (w h : Int) (occupied dirty : List (Int × Int))
    (c : Int × Int) :
    c ∈ spawn_free_cells w h occupied dirty ↔
      c ∈ grid_cells w h ∧ is_cell_empty occupied c = true ∧ dirty.contains c = false := by
  unfold spawn_free_cells
  simp [List.mem_filter]

/-- The spawn loop adds exactly `n` tiles when `n` free cells exist. -/
theorem spawn_loop_length (sel : Nat → Nat) :
    ∀ (n : Nat) (dirty free : List (Int × Int)), n ≤ free.length →
      (spawn_loop sel n dirty free).length = dirty.length + n := by
  intro n
  induction n with
  | zero => intro dirty free _; simp [spawn_loop]
  | succ n ih =>
    intro dirty free hn
    unfold spawn_loop
    cases hg : free[sel n % free.length]? with
    | none =>
      rw [List.getElem?_eq_none_iff] at hg
      have hpos : 0 < free.length := by omega
      have := Nat.mod_lt (sel n) hpos
      omega
    | some c =>
      have hcm : c ∈ free := List.getElem?_mem hg
      have hlen : (free.erase c).length = free.length - 1 := by
        rw [List.length_erase]
        simp [hcm]
      rw [ih (dirty ++ [c]) (free.erase c) (by omega)]
      simp only [List.length_append, List.length_cons, List.length_nil]
      omega

/-- Every tile produced by the spawn loop is an original tile or a free
cell. -/
theorem spawn_loop_mem (sel : Nat → Nat) :
    ∀ (n : Nat) (dirty free : List (Int × Int)) (x : Int × Int),
      x ∈ spawn_loop sel n dirty free → x ∈ dirty ∨ x ∈ free := by
  intro n
  induction n with
  | zero => intro dirty free x hx; exact Or.inl hx
  | succ n ih =>
    intro dirty free x hx
    unfold spawn_loop at hx
    cases hg : free[sel n % free.length]? with
    | none => rw [hg] at hx; exact Or.inl hx
    | some c =>
      rw [hg] at hx
      have hcm : c ∈ free := List.getElem?_mem hg
      rcases ih (dirty ++ [c]) (free.erase c) x hx with hd | hf
      · rcases List.mem_append.1 hd with hd | hd
        · exact Or.inl hd
        · simp only [List.mem_singleton] at hd
          exact Or.inr (hd ▸ hcm)
      · exact Or.inr (List.mem_of_mem_erase hf)

/-- The spawn loop keeps the dirty list duplicate-free. -/
theorem spawn_loop_nodup (sel : Nat → Nat) :
    ∀ (n : Nat) (dirty free : List (Int × Int)),
      free.Nodup → dirty.Nodup → (∀ x ∈ dirty, x ∉ free) →
      (spawn_loop sel n dirty free).Nodup := by
  intro n
  induction n with
  | zero => intro dirty free _ hd _; exact hd
  | succ n ih =>
    intro dirty free hf hd hdj
    unfold spawn_loop
    cases hg : free[sel n % free.length]? with
    | none => exact hd
    | some c =>
      have hcm : c ∈ free := List.getElem?_mem hg
      have hcd : c ∉ dirty := fun hc => hdj c hc hcm
      refine ih (dirty ++ [c]) (free.erase c) (hf.erase c)
        (hd.append (List.nodup_singleton c) ?_) ?_
      · intro a ha hac
        simp only [List.mem_singleton] at hac
        exact hcd (hac ▸ ha)
      · intro x hx hxe
        rw [hf.mem_erase_iff] at hxe
        rcases List.mem_append.1 hx with hx | hx
        · exact hdj x hx hxe.2
        · simp only [List.mem_singleton] at hx
          exact hxe.1 (by rw [hx])

/-- At construction (empty initial dirty list) `spawn_dirty_tiles` (empty initial dirty list)
produces exactly `min(dirty_count, #free cells)` tiles. -/
theorem spawn_dirty_tiles_length (w h dc : Int) (occupied : List (Int × Int))
    (sel : Nat → Nat) :
    (spawn_dirty_tiles w h dc occupied [] sel).length =
      min dc.toNat (spawn_free_cells w h occupied []).length := by
  unfold spawn_dirty_tiles
  rw [spawn_loop_length sel _ [] _ (by omega)]
  simp only [List.length_nil]
  omega

/-- Spawned tiles are free cells. -/
theorem spawn_dirty_tiles_mem (w h dc : Int) (occupied : List (Int × Int))
    (sel : Nat → Nat) (x : Int × Int)
    (hx : x ∈ spawn_dirty_tiles w h dc occupied [] sel) :
    x ∈ spawn_free_cells w h occupied [] := by
  unfold spawn_dirty_tiles at hx
  rcases spawn_loop_mem sel _ [] _ x hx with hd | hf
  · cases hd
  · exact hf

/-- Spawned tiles are pairwise distinct. -/
theorem spawn_dirty_tiles_nodup (w h dc : Int) (occupied : List (Int × Int))
    (sel : Nat → Nat) :
    (spawn_dirty_tiles w h dc occupied [] sel).Nodup := by
  unfold spawn_dirty_tiles
  exact spawn_loop_nodup sel _ [] _ (spawn_free_cells_nodup w h occupied [])
    List.nodup_nil (by simp)

/-! ### Step-level lemmas -/

/-- The post-tick agent list of a running tick. -/
def post_agents (m : DummyModel) (mvf : Nat → Fin moves.length) : List DummyAgent :=
  advance_phase m.width m.height (intent_phase m.width m.height mvf 0 m.agents)

/-- The `to_remove` list of a running tick: dirty tiles occupied by some
agent after the advance phase, in registry order. -/
def tick_removed (m : DummyModel) (mvf : Nat → Fin moves.length) : List (Int × Int) :=
  m.dirty_tiles.filter (occupied_tile (post_agents m mvf))

/-- A `step` on a finished model is the identity. -/
theorem step_done (m : DummyModel) (mvf : Nat → Fin moves.length)
    (hd : m.done = true) : m.step mvf = m := by
  simp [DummyModel.step, hd]

/-- Explicit description of one running tick. -/
theorem step_not_done (m : DummyModel) (mvf : Nat → Fin moves.length)
    (hd : m.done = false) :
    m.step mvf =
      { m with
        agents := post_agents m mvf,
        dirty_tiles := (tick_removed m mvf).foldl List.erase m.dirty_tiles,
        cleaned_count := m.cleaned_count + (tick_removed m mvf).length,
        last_cleaned_step :=
          if (tick_removed m mvf).isEmpty then m.last_cleaned_step
          else some (m.current_step + 1),
        current_step := m.current_step + 1,
        done := ((tick_removed m mvf).foldl List.erase m.dirty_tiles).isEmpty ||
          decide (m.current_step + 1 ≥ m.max_steps) } := by
  simp only [DummyModel.step, hd, Bool.false_eq_true, if_false, post_agents, tick_removed]

/-- Splitting a list by a predicate preserves total length. -/
theorem length_filter_split {α : Type} (p : α → Bool) (l : List α) :
    (l.filter fun x => !p x).length + (l.filter p).length = l.length := by
  induction l with
  | nil => rfl
  | cons a t ih => by_cases hp : p a <;> simp [hp] <;> omega

/-- On a duplicate-free list, erasing all elements satisfying `p` (one
`list.remove` per marked element) is the same as keeping the elements not
satisfying `p`. -/
theorem foldl_erase_filter {α : Type} [BEq α] [LawfulBEq α] (l : List α) (p : α → Bool)
    (hl : l.Nodup) :
    (l.filter p).foldl List.erase l = l.filter fun x => !p x := by
  rw [← List.diff_eq_foldl, hl.diff_eq_filter]
  apply List.filter_congr
  intro x hx
  by_cases hp : p x
  · simp [List.mem_filter, hx, hp]
  · simp [List.mem_filter, hx, hp]

/-- The dirty registry after a running tick on a duplicate-free registry:
exactly the unoccupied dirty tiles, in order. -/
theorem step_dirty_filter (m : DummyModel) (mvf : Nat → Fin moves.length)
    (hd : m.done = false) (hnd : m.dirty_tiles.Nodup) :
    (m.step mvf).dirty_tiles =
      m.dirty_tiles.filter fun t => ! occupied_tile (post_agents m mvf) t := by
  rw [step_not_done m mvf hd]
  dsimp only
  unfold tick_removed
  exact foldl_erase_filter _ _ hnd

/-- A tick never introduces duplicate dirty tiles. -/
theorem step_dirty_nodup (m : DummyModel) (mvf : Nat → Fin moves.length)
    (hnd : m.dirty_tiles.Nodup) : (m.step mvf).dirty_tiles.Nodup := by
  cases hd : m.done with
  | true => rw [step_done m mvf hd]; exact hnd
  | false => rw [step_dirty_filter m mvf hd hnd]; exact hnd.filter _

/-! ### Construction lemmas -/

/-- Characterization of a successful construction. -/
theorem init_some (height width ac dc ms : Int) (sel : Nat → Nat) (m : DummyModel)
    (hm : DummyModel.init height width ac dc ms sel = some m) :
    m.width = width ∧ m.height = height ∧ m.agents = init_agents ac ∧
    m.dirty_tiles =
      spawn_dirty_tiles width height dc ((init_agents ac).map fun a => a.pos) [] sel ∧
    m.dirty_count = dc ∧ m.max_steps = ms ∧ m.current_step = 0 ∧
    m.done = false ∧ m.cleaned_count = 0 ∧ m.last_cleaned_step = none := by
  unfold DummyModel.init at hm
  split at hm
  · cases hm
  · injection hm with hm
    subst hm
    exact ⟨rfl, rfl, rfl, rfl, rfl, rfl, rfl, rfl, rfl, rfl⟩

/-- Construction fails exactly when at least one agent must be placed and
the fixed start cell `(0, 5)` is outside the grid. -/
theorem init_none_iff (height width ac dc ms : Int) (sel : Nat → Nat) :
    DummyModel.init height width ac dc ms sel = none ↔
      0 < ac ∧ (width ≤ 0 ∨ height ≤ 5) := by
  unfold DummyModel.init
  split
  case isTrue hcond =>
    constructor
    · intro _
      obtain ⟨h1, h2⟩ := hcond
      refine ⟨h1, ?_⟩
      simp only [in_bounds, start_pos, boardN, decide_eq_true_eq] at h2
      omega
    · intro _
      rfl
  case isFalse hcond =>
    constructor
    · intro hcontra
      cases hcontra
    · intro hr
      exfalso
      apply hcond
      refine ⟨hr.1, ?_⟩
      simp only [in_bounds, start_pos, boardN, decide_eq_true_eq]
      omega

/-- Every initial agent stands at the fixed start cell. -/
theorem init_agents_pos (ac : Int) (a : DummyAgent) (ha : a ∈ init_agents ac) :
    a.pos = start_pos := by
  unfold init_agents at ha
  rw [List.mem_map] at ha
  obtain ⟨i, _, rfl⟩ := ha
  rfl

/-- Configuration fields are untouched by `step`. -/
theorem step_config (m : DummyModel) (mvf : Nat → Fin moves.length) :
    (m.step mvf).width = m.width ∧ (m.step mvf).height = m.height ∧
    (m.step mvf).max_steps = m.max_steps ∧ (m.step mvf).dirty_count = m.dirty_count := by
  cases hd : m.done with
  | true => rw [step_done m mvf hd]; exact ⟨rfl, rfl, rfl, rfl⟩
  | false => rw [step_not_done m mvf hd]; exact ⟨rfl, rfl, rfl, rfl⟩

/-- Tile conservation over one tick of a duplicate-free registry. -/
theorem step_conservation (m : DummyModel) (mvf : Nat → Fin moves.length)
    (hnd : m.dirty_tiles.Nodup) :
    (m.step mvf).cleaned_count + (m.step mvf).dirty_tiles.length =
      m.cleaned_count + m.dirty_tiles.length := by
  cases hd : m.done with
  | true => rw [step_done m mvf hd]
  | false =>
    rw [step_dirty_filter m mvf hd hnd, step_not_done m mvf hd]
    dsimp only
    unfold tick_removed
    have hsplit := length_filter_split (occupied_tile (post_agents m mvf)) m.dirty_tiles
    omega

/-- The counter `cleaned_count` never decreases. -/
theorem step_cleaned_monotone (m : DummyModel) (mvf : Nat → Fin moves.length) :
    m.cleaned_count ≤ (m.step mvf).cleaned_count := by
  cases hd : m.done with
  | true => rw [step_done m mvf hd]
  | false =>
    rw [step_not_done m mvf hd]
    dsimp only
    omega

/-- The agent list after a running tick. -/
theorem step_agents_not_done (m : DummyModel) (mvf : Nat → Fin moves.length)
    (hd : m.done = false) : (m.step mvf).agents = post_agents m mvf := by
  rw [step_not_done m mvf hd]

/-- Invariant: the registry is duplicate-free and disjoint from the agent
positions. -/
def DirtyOk (m : DummyModel) : Prop :=
  m.dirty_tiles.Nodup ∧ ∀ t ∈ m.dirty_tiles, ∀ a ∈ m.agents, a.pos ≠ t

/-- One tick preserves `DirtyOk`. -/
theorem dirtyOk_step (m : DummyModel) (mvf : Nat → Fin moves.length)
    (h : DirtyOk m) : DirtyOk (m.step mvf) := by
  obtain ⟨hnd, hdisj⟩ := h
  cases hd : m.done with
  | true => rw [step_done m mvf hd]; exact ⟨hnd, hdisj⟩
  | false =>
    refine ⟨step_dirty_nodup m mvf hnd, ?_⟩
    intro t ht a ha
    rw [step_dirty_filter m mvf hd hnd] at ht
    rw [List.mem_filter] at ht
    have hocc := ht.2
    rw [step_agents_not_done m mvf hd] at ha
    intro hpos
    unfold occupied_tile at hocc
    simp only [Bool.not_eq_true'] at hocc
    rw [List.any_eq_false] at hocc
    exact hocc a ha (by simp [hpos])

/-- A freshly constructed model satisfies `DirtyOk`. -/
theorem dirtyOk_init (height width ac dc ms : Int) (sel : Nat → Nat) (m : DummyModel)
    (hm : DummyModel.init height width ac dc ms sel = some m) : DirtyOk m := by
  obtain ⟨hw, hh, hag, hdt, -, -, -, -, -, -⟩ := init_some height width ac dc ms sel m hm
  constructor
  · rw [hdt]
    exact spawn_dirty_tiles_nodup width height dc _ sel
  · intro t ht a ha
    rw [hdt] at ht
    have hfree := spawn_dirty_tiles_mem width height dc _ sel t ht
    rw [spawn_free_cells_mem] at hfree
    obtain ⟨-, hemp, -⟩ := hfree
    unfold is_cell_empty at hemp
    simp only [Bool.not_eq_true'] at hemp
    rw [hag] at ha
    intro hpos
    have hmem : a.pos ∈ (init_agents ac).map (fun a => a.pos) :=
      List.mem_map_of_mem _ ha
    rw [hpos] at hmem
    simp only [List.contains, List.elem_eq_mem, decide_eq_false_iff_not] at hemp
    exact hemp hmem

/-- The invariant `DirtyOk` holds along any run. -/
theorem dirtyOk_run (m : DummyModel) (mvs : List (Nat → Fin moves.length))
    (h : DirtyOk m) : DirtyOk (m.run mvs) := by
  induction mvs generalizing m with
  | nil => exact h
  | cons mv rest ih => exact ih (m.step mv) (dirtyOk_step m mv h)

/-- Unfolding one tick of a run. -/
theorem run_cons (m : DummyModel) (mv : Nat → Fin moves.length)
    (rest : List (Nat → Fin moves.length)) :
    m.run (mv :: rest) = (m.step mv).run rest := rfl

/-- Tile conservation along any run of a `DirtyOk` model. -/
theorem run_conservation (m : DummyModel) (mvs : List (Nat → Fin moves.length))
    (h : DirtyOk m) :
    (m.run mvs).cleaned_count + (m.run mvs).dirty_tiles.length =
      m.cleaned_count + m.dirty_tiles.length ∧
    m.cleaned_count ≤ (m.run mvs).cleaned_count := by
  induction mvs generalizing m with
  | nil => exact ⟨rfl, Nat.le_refl _⟩
  | cons mv rest ih =>
    obtain ⟨hc, hmono⟩ := ih (m.step mv) (dirtyOk_step m mv h)
    have hstep := step_conservation m mv h.1
    have hsm := step_cleaned_monotone m mv
    rw [run_cons]
    exact ⟨by omega, Nat.le_trans hsm hmono⟩

/-- Total number of observed position changes along a run, tick by tick. -/
def run_changes (m : DummyModel) : List (Nat → Fin moves.length) → Nat
  | [] => 0
  | mv :: rest => changed_count m.agents (m.step mv).agents + run_changes (m.step mv) rest

/-- No position changes between a list and itself. -/
theorem changed_count_self (l : List DummyAgent) : changed_count l l = 0 := by
  induction l with
  | nil => rfl
  | cons a rest ih => simp [changed_count, ih]

/-- One tick grows the total move count by the number of position
changes it commits. -/
theorem step_total_moves (m : DummyModel) (mvf : Nat → Fin moves.length) :
    total_moves (m.step mvf).agents =
      total_moves m.agents + changed_count m.agents (m.step mvf).agents := by
  cases hd : m.done with
  | true => rw [step_done m mvf hd, changed_count_self, Nat.add_zero]
  | false =>
    rw [step_agents_not_done m mvf hd]
    unfold post_agents
    exact total_moves_post_phases m.width m.height mvf m.agents 0

/-- Along any run the total move count equals the initial total plus all
observed position changes. -/
theorem run_total_moves (m : DummyModel) (mvs : List (Nat → Fin moves.length)) :
    total_moves (m.run mvs).agents = total_moves m.agents + run_changes m mvs := by
  induction mvs generalizing m with
  | nil => rfl
  | cons mv rest ih =>
    rw [run_cons]
    have h1 := ih (m.step mv)
    have h2 := step_total_moves m mv
    unfold run_changes
    omega

/-! ### Concrete fixtures for witnesses -/

/-- A fixed selection function: always pick the first free cell. -/
def sel0 : Nat → Nat := fun _ => 0

/-- A fixed per-agent move choice: always the first offset (left). -/
def mv0 : Nat → Fin moves.length := fun _ => ⟨0, by decide⟩

/-- The model built by `DummyModel.init 6 6 2 3 10 sel0`: two agents at the
start corner, three dirty tiles picked by `sel0`. -/
def witness_model : DummyModel :=
  { width := 6, height := 6,
    agents := [{ unique_id := 0, pos := (0, 5), next_pos := none, moves_made := 0 },
               { unique_id := 1, pos := (0, 5), next_pos := none, moves_made := 0 }],
    dirty_tiles := [(0, 0), (0, 1), (0, 2)], dirty_count := 3, max_steps := 10,
    current_step := 0, done := false, cleaned_count := 0, last_cleaned_step := none }

/-- The fixture `witness_model` is a genuine construction result. -/
theorem init_witness : DummyModel.init 6 6 2 3 10 sel0 = some witness_model := by
  decide

/-- The empty model built by `DummyModel.init 6 6 0 0 0 sel0`. -/
def witness_model0 : DummyModel :=
  { width := 6, height := 6, agents := [], dirty_tiles := [], dirty_count := 0,
    max_steps := 0, current_step := 0, done := false, cleaned_count := 0,
    last_cleaned_step := none }

/-- The fixture `witness_model0` is a genuine construction result. -/
theorem init_witness0 : DummyModel.init 6 6 0 0 0 sel0 = some witness_model0 := by
  decide

/-- The fixture `witness_model` after the engine has finished. -/
def witness_done : DummyModel :=
  { witness_model with done := true }

/-! ### Claims -/

/-- C1, counterexample: constructing the engine with `max_steps = 0` (and
the source defaults otherwise) leaves `done = false` immediately after
construction — the engine is not in the DONE state before the first
`tick()`, contrary to the claim. -/
theorem C1_counterexample :
    (DummyModel.init 6 6 3 12 0 sel0).map (fun m => m.done) = some false := by
  decide

/-- C1, amended: immediately after construction the engine is always
RUNNING (`done = false`) with `cleaned_count = 0` and `current_step = 0`,
even when `max_steps ≤ 0` or the dirty set is initially empty; the
constructor handles no such edge case.  When `max_steps ≤ 0` the engine
reaches DONE only through the first `tick()` call, which executes
normally and leaves `current_step = 1`; the summary taken at that point
follows the normal branch selection: the budget-exhausted branch at
`current_step = 1` if the registry is still nonempty, and the all-cleaned
branch if the registry is empty after that tick (in particular when it
was initially empty). -/
theorem C1_running_after_construction (height width ac dc ms : Int)
    (sel : Nat → Nat) (m : DummyModel)
    (hm : DummyModel.init height width ac dc ms sel = some m) :
    m.done = false ∧ m.cleaned_count = 0 ∧ m.current_step = 0 ∧
    (ms ≤ 0 → ∀ mvf,
      (m.step mvf).done = true ∧ (m.step mvf).current_step = 1 ∧
      ((m.step mvf).dirty_tiles ≠ [] →
        (m.step mvf).print_summary =
          Summary.budgetExhausted ms 1 (m.step mvf).cleaned_count
            (total_moves (m.step mvf).agents)) ∧
      ((m.step mvf).dirty_tiles = [] →
        (m.step mvf).print_summary =
          Summary.allCleaned (m.step mvf).last_cleaned_step
            (m.step mvf).cleaned_count (total_moves (m.step mvf).agents))) := by
  obtain ⟨-, -, -, -, -, hms, hstep0, hdone, hcl, -⟩ :=
    init_some height width ac dc ms sel m hm
  refine ⟨hdone, hcl, hstep0, ?_⟩
  intro hms0 mvf
  have hge : m.current_step + 1 ≥ m.max_steps := by
    rw [hstep0, hms]
    omega
  have hstep1 : (m.step mvf).current_step = 1 := by
    rw [step_not_done m mvf hdone]
    dsimp only
    rw [hstep0]
    rfl
  refine ⟨?_, hstep1, ?_, ?_⟩
  · rw [step_not_done m mvf hdone]
    dsimp only
    simp [hge]
  · intro hdt
    have hmx := (step_config m mvf).2.2.1
    simp only [DummyModel.print_summary]
    rw [if_neg (by simpa [List.isEmpty_iff] using hdt), hmx, hms, hstep1]
  · intro hdt
    simp only [DummyModel.print_summary]
    rw [if_pos (by simpa [List.isEmpty_iff] using hdt)]

/-- C1, witness: the engine constructed with `max_steps = 0` and an empty
dirty set is DONE after its first tick, at `current_step = 1`, and the
summary taken there is the all-cleaned branch. -/
theorem C1_witness :
    (witness_model0.step mv0).done = true ∧
    (witness_model0.step mv0).current_step = 1 ∧
    (witness_model0.step mv0).print_summary =
      Summary.allCleaned (witness_model0.step mv0).last_cleaned_step
        (witness_model0.step mv0).cleaned_count
        (total_moves (witness_model0.step mv0).agents) :=
  ⟨((C1_running_after_construction 6 6 0 0 0 sel0 witness_model0
      init_witness0).2.2.2 (by decide) mv0).1,
   ((C1_running_after_construction 6 6 0 0 0 sel0 witness_model0
      init_witness0).2.2.2 (by decide) mv0).2.1,
   ((C1_running_after_construction 6 6 0 0 0 sel0 witness_model0
      init_witness0).2.2.2 (by decide) mv0).2.2.2 (by decide)⟩

/-- C2: agents that are in bounds stay in bounds across any `tick()`
(every post-tick agent position satisfies the bounds); an out-of-bounds
candidate degrades the intent to the agent's current, unchanged position;
and every successfully constructed model starts with all agents in
bounds, so every reachable state keeps all agents on the grid. -/
theorem C2_agents_in_bounds (m : DummyModel) (mvf : Nat → Fin moves.length)
    (hb : ∀ a ∈ m.agents, in_bounds m.width m.height a.pos = true) :
    (∀ a ∈ (m.step mvf).agents, in_bounds m.width m.height a.pos = true) ∧
    (∀ (w h : Int) (a : DummyAgent) (mv : Fin moves.length),
      in_bounds w h (a.pos.1 + (moves.get mv).1, a.pos.2 + (moves.get mv).2) = false →
      (a.intent w h mv).next_pos = some a.pos) ∧
    (∀ (height width ac dc ms : Int) (sel : Nat → Nat) (m0 : DummyModel),
      DummyModel.init height width ac dc ms sel = some m0 →
      ∀ a ∈ m0.agents, in_bounds m0.width m0.height a.pos = true) := by
  refine ⟨?_, ?_, ?_⟩
  · intro a ha
    cases hd : m.done with
    | true =>
      rw [step_done m mvf hd] at ha
      exact hb a ha
    | false =>
      rw [step_agents_not_done m mvf hd] at ha
      unfold post_agents at ha
      obtain ⟨a0, ha0, j, rfl⟩ :=
        mem_post_phases m.width m.height mvf m.agents 0 a ha
      have hstart := hb a0 ha0
      rw [← intent_pos m.width m.height (mvf j) a0] at hstart
      exact advance_pos_in_bounds m.width m.height _ hstart
  · intro w h a mv hc
    exact intent_fallback w h mv a hc
  · intro height width ac dc ms sel m0 hm0 a ha
    obtain ⟨hw, hh, hag, -, -, -, -, -, -, -⟩ :=
      init_some height width ac dc ms sel m0 hm0
    rw [hag] at ha
    have hpos := init_agents_pos ac a ha
    rw [hw, hh, hpos]
    by_cases hac : 0 < ac
    · unfold DummyModel.init at hm0
      split at hm0
      · cases hm0
      · rename_i hcond
        by_contra hnb
        exact hcond ⟨hac, hnb⟩
    · exfalso
      unfold init_agents at ha
      rw [List.mem_map] at ha
      obtain ⟨i, hi, -⟩ := ha
      rw [List.mem_range] at hi
      omega

/-- C2, witness: the bounds invariant evaluated after one tick of the
concrete constructed model. -/
theorem C2_witness :
    in_bounds witness_model.width witness_model.height
      ({ unique_id := 0, pos := (0, 5), next_pos := some ((0 : Int), (5 : Int)),
         moves_made := 0 } : DummyAgent).pos = true :=
  (C2_agents_in_bounds witness_model mv0 (by decide)).1
    { unique_id := 0, pos := (0, 5), next_pos := some ((0 : Int), (5 : Int)),
      moves_made := 0 } (by decide)

/-- C3: a running tick sets `done` exactly when the post-tick registry is
empty or the post-tick step counter has reached the budget; the summary of
the post-tick state is the all-cleaned branch (reporting
`last_cleaned_step`, total cleaned, total moves) whenever the registry is
empty — in particular taking priority when both conditions hold — and the
budget-exhausted branch (reporting `max_steps`, `current_step`, total
cleaned, total moves) otherwise; and once `done` is set, further ticks
change nothing, so the summary is produced exactly once, at the
transition tick. -/
theorem C3_termination_summary (m : DummyModel) (mvf : Nat → Fin moves.length)
    (hd : m.done = false) :
    ((m.step mvf).done = true ↔
      ((m.step mvf).dirty_tiles = [] ∨ (m.step mvf).current_step ≥ m.max_steps)) ∧
    ((m.step mvf).dirty_tiles = [] →
      (m.step mvf).print_summary =
        Summary.allCleaned (m.step mvf).last_cleaned_step
          (m.step mvf).cleaned_count (total_moves (m.step mvf).agents)) ∧
    ((m.step mvf).dirty_tiles ≠ [] →
      (m.step mvf).print_summary =
        Summary.budgetExhausted m.max_steps (m.step mvf).current_step
          (m.step mvf).cleaned_count (total_moves (m.step mvf).agents)) ∧
    ((m.step mvf).done = true → ∀ mvf2, (m.step mvf).step mvf2 = m.step mvf) := by
  refine ⟨?_, ?_, ?_, ?_⟩
  · rw [step_not_done m mvf hd]
    dsimp only
    simp [List.isEmpty_iff]
  · intro hdt
    unfold DummyModel.print_summary
    rw [hdt]
    rfl
  · intro hdt
    have hms := (step_config m mvf).2.2.1
    simp only [DummyModel.print_summary]
    rw [if_neg (by simpa [List.isEmpty_iff] using hdt), hms]
  · intro h2 mvf2
    exact step_done _ mvf2 h2

/-- C3, witness: the budget-exhausted branch evaluated on a concrete
still-dirty tick of the constructed model. -/
theorem C3_witness :
    (witness_model.step mv0).print_summary =
      Summary.budgetExhausted witness_model.max_steps
        (witness_model.step mv0).current_step
        (witness_model.step mv0).cleaned_count
        (total_moves (witness_model.step mv0).agents) :=
  (C3_termination_summary witness_model mv0 (by decide)).2.2.1 (by decide)

/-- C4: along every run of a constructed model, `cleaned_count` plus the
number of remaining dirty tiles equals the initial dirty-tile count,
`cleaned_count` never exceeds the initial dirty-tile count (so a dirty
cell occupied by several agents in one tick is counted exactly once), and
`cleaned_count` is monotonically non-decreasing across the next tick. -/
theorem C4_cleaned_conservation (height width ac dc ms : Int) (sel : Nat → Nat)
    (m : DummyModel) (hm : DummyModel.init height width ac dc ms sel = some m)
    (mvs : List (Nat → Fin moves.length)) :
    (m.run mvs).cleaned_count + (m.run mvs).dirty_tiles.length =
      m.dirty_tiles.length ∧
    (m.run mvs).cleaned_count ≤ m.dirty_tiles.length ∧
    ∀ mv, (m.run mvs).cleaned_count ≤ ((m.run mvs).step mv).cleaned_count := by
  have hok := dirtyOk_init height width ac dc ms sel m hm
  have hc := run_conservation m mvs hok
  have hcl : m.cleaned_count = 0 :=
    (init_some height width ac dc ms sel m hm).2.2.2.2.2.2.2.2.1
  refine ⟨by omega, by omega, fun mv => step_cleaned_monotone _ mv⟩

/-- C4, witness: conservation after one tick of the concrete model. -/
theorem C4_witness :
    (witness_model.run [mv0]).cleaned_count +
        (witness_model.run [mv0]).dirty_tiles.length =
      witness_model.dirty_tiles.length :=
  (C4_cleaned_conservation 6 6 2 3 10 sel0 witness_model init_witness [mv0]).1

/-- C5: while RUNNING, a `tick()` increases `current_step` by exactly one;
once `done` is true, a `tick()` is the identity on the whole state (agent
positions and move counts, the dirty registry, all counters, and `done`
itself are unchanged). -/
theorem C5_step_counter (m : DummyModel) (mvf : Nat → Fin moves.length) :
    (m.done = true → m.step mvf = m) ∧
    (m.done = false → (m.step mvf).current_step = m.current_step + 1) := by
  constructor
  · exact step_done m mvf
  · intro hd
    rw [step_not_done m mvf hd]

/-- C5, witness: both branches evaluated on concrete models. -/
theorem C5_witness :
    witness_done.step mv0 = witness_done ∧
    (witness_model.step mv0).current_step = witness_model.current_step + 1 :=
  ⟨(C5_step_counter witness_done mv0).1 rfl,
   (C5_step_counter witness_model mv0).2 rfl⟩

/-- C6: `advance` increments `moves_made` by exactly one iff the committed
position differs from the pre-tick position (and leaves it unchanged in
the no-op cases); the intent phase never mutates the position; and summing
`move_count` across agents equals the total number of observed position
changes, both over a single tick and over a whole run. -/
theorem C6_move_count (m : DummyModel) (mvf : Nat → Fin moves.length)
    (a : DummyAgent) (w h : Int) (mv : Fin moves.length)
    (mvs : List (Nat → Fin moves.length)) :
    ((a.advance w h).moves_made =
      a.moves_made + (if (a.advance w h).pos = a.pos then 0 else 1)) ∧
    ((a.intent w h mv).pos = a.pos) ∧
    (total_moves (m.step mvf).agents =
      total_moves m.agents + changed_count m.agents (m.step mvf).agents) ∧
    (total_moves (m.run mvs).agents = total_moves m.agents + run_changes m mvs) :=
  ⟨advance_moves_made w h a, intent_pos w h mv a,
   step_total_moves m mvf, run_total_moves m mvs⟩

/-- C7: dirty-tile initialization yields exactly
`min(requested count, #free cells)` tiles, pairwise distinct, all grid
cells unoccupied by agents; a request exceeding the number of free cells
silently yields fewer tiles, with no failure for any configuration (the
length formula holds for all inputs, including negative requests). -/
theorem C7_spawn_min_distinct (width height dc : Int)
    (occupied : List (Int × Int)) (sel : Nat → Nat) :
    (spawn_dirty_tiles width height dc occupied [] sel).length =
      min dc.toNat (spawn_free_cells width height occupied []).length ∧
    (spawn_dirty_tiles width height dc occupied [] sel).Nodup ∧
    ∀ t ∈ spawn_dirty_tiles width height dc occupied [] sel,
      t ∈ grid_cells width height ∧ is_cell_empty occupied t = true := by
  refine ⟨spawn_dirty_tiles_length width height dc occupied sel,
    spawn_dirty_tiles_nodup width height dc occupied sel, ?_⟩
  intro t ht
  have hf := spawn_dirty_tiles_mem width height dc occupied sel t ht
  rw [spawn_free_cells_mem] at hf
  exact ⟨hf.1, hf.2.1⟩

/-- C7, witness: the length formula evaluated at a concrete
configuration in which fewer free cells exist than requested. -/
theorem C7_witness :
    (spawn_dirty_tiles 2 2 10 [((0 : Int), (1 : Int))] [] sel0).length =
      min (10 : Int).toNat (spawn_free_cells 2 2 [((0 : Int), (1 : Int))] []).length :=
  (C7_spawn_min_distinct 2 2 10 [((0 : Int), (1 : Int))] sel0).1

/-- C8, counterexample: constructing with the non-positive
`max_steps = -1` (source defaults otherwise) succeeds — no configuration
validation error is raised, contrary to the claim. -/
theorem C8_counterexample :
    (DummyModel.init 6 6 3 12 (-1) sel0).isSome = true := by
  decide

/-- C8, amended: construction performs no configuration validation at
all — it succeeds for every configuration except that placing at least
one agent at the fixed start cell `(0, 5)` fails when that cell is outside
the grid (`width ≤ 0` or `height ≤ 5`); in particular non-positive
`max_steps`, non-positive `dirty_count`, and `agent_count`/`dirty_count`
that cannot fit the grid all construct successfully (dirty tiles being
silently capped). -/
theorem C8_no_validation (height width ac dc ms : Int) (sel : Nat → Nat) :
    (DummyModel.init height width ac dc ms sel).isSome = true ↔
      ¬ (0 < ac ∧ (width ≤ 0 ∨ height ≤ 5)) := by
  rw [Option.isSome_iff_ne_none, ne_eq, init_none_iff]

/-- C9: runs are deterministic in the injected randomness — two runs with
identical configuration and pointwise-equal random sources produce
identical traces of agent positions, identical dirty-registry traces, and
the identical summary at every state. -/
theorem C9_determinism (height width ac dc ms : Int) (sel1 sel2 : Nat → Nat)
    (mvs1 mvs2 : List (Nat → Fin moves.length))
    (hsel : ∀ n, sel1 n = sel2 n)
    (hmv : List.Forall₂ (fun f g => ∀ i, f i = g i) mvs1 mvs2) :
    (DummyModel.init height width ac dc ms sel1).map
        (fun m => (m.trace mvs1).map fun s =>
          (s.agents.map fun a => a.pos, s.dirty_tiles, s.print_summary)) =
      (DummyModel.init height width ac dc ms sel2).map
        (fun m => (m.trace mvs2).map fun s =>
          (s.agents.map fun a => a.pos, s.dirty_tiles, s.print_summary)) := by
  have h1 : sel1 = sel2 := funext hsel
  have h2 : mvs1 = mvs2 := by
    induction hmv with
    | nil => rfl
    | cons hfg _ ih =>
      rw [ih]
      rw [funext hfg]
  rw [h1, h2]

/-- C9, witness: determinism evaluated at a concrete configuration and
random source. -/
theorem C9_witness :
    (DummyModel.init 6 6 2 3 10 sel0).map
        (fun m => (m.trace [mv0]).map fun s =>
          (s.agents.map fun a => a.pos, s.dirty_tiles, s.print_summary)) =
      (DummyModel.init 6 6 2 3 10 sel0).map
        (fun m => (m.trace [mv0]).map fun s =>
          (s.agents.map fun a => a.pos, s.dirty_tiles, s.print_summary)) :=
  C9_determinism 6 6 2 3 10 sel0 sel0 [mv0] [mv0] (fun _ => rfl)
    (List.Forall₂.cons (fun _ => rfl) List.Forall₂.nil)

/-- C10: at every observable point of every run of a constructed model
(construction itself included, via the empty run), no remaining dirty tile
coincides with any agent's position. -/
theorem C10_dirty_disjoint_agents (height width ac dc ms : Int) (sel : Nat → Nat)
    (m : DummyModel) (hm : DummyModel.init height width ac dc ms sel = some m)
    (mvs : List (Nat → Fin moves.length)) :
    ∀ t ∈ (m.run mvs).dirty_tiles, ∀ a ∈ (m.run mvs).agents, a.pos ≠ t :=
  (dirtyOk_run m mvs (dirtyOk_init height width ac dc ms sel m hm)).2

/-- C10, witness: disjointness evaluated at the freshly constructed
concrete model. -/
theorem C10_witness :
    ({ unique_id := 0, pos := (0, 5), next_pos := none, moves_made := 0 } :
      DummyAgent).pos ≠ ((0 : Int), (0 : Int)) :=
  C10_dirty_disjoint_agents 6 6 2 3 10 sel0 witness_model init_witness []
    (0, 0) (by decide)
    { unique_id := 0, pos := (0, 5), next_pos := none, moves_made := 0 }
    (by decide)

end RoombaSim
